import Mathlib

/-!
Verification of the gason JSON library header (`gason.h`).

The value representation is one 64-bit machine word (`union { uint64_t i; double f; }`)
NaN-boxing either a raw IEEE-754 double or a `(tag, 47-bit pointer payload)` pair
inside the quiet-NaN space.  Machine words are modelled as `Nat` with explicit
bounds (`w < 2^64`); the C cast `(int64_t)w` is modelled by `toInt64`;
C `assert` failures are modelled by `Option`/`none`.
-/

namespace Gason

/-- `#define JSON_VALUE_PAYLOAD_MASK 0x00007FFFFFFFFFFFULL` (= 2^47 - 1). -/
def JSON_VALUE_PAYLOAD_MASK : Nat := 0x00007FFFFFFFFFFF

/-- `#define JSON_VALUE_NAN_MASK 0x7FF8000000000000ULL`. -/
def JSON_VALUE_NAN_MASK : Nat := 0x7FF8000000000000

/-- `#define JSON_VALUE_NULL 0x7FFF800000000000ULL`. -/
def JSON_VALUE_NULL : Nat := 0x7FFF800000000000

/-- `#define JSON_VALUE_TAG_MASK 0xF`. -/
def JSON_VALUE_TAG_MASK : Nat := 0xF

/-- `#define JSON_VALUE_TAG_SHIFT 47`. -/
def JSON_VALUE_TAG_SHIFT : Nat := 47

/-! The C `enum JsonTag` values.  A C enum is an integer type, so tags are
modelled as the `Nat` values the enum constants denote. -/

def JSON_TAG_NUMBER : Nat := 0
def JSON_TAG_STRING : Nat := 1
def JSON_TAG_BOOL : Nat := 2
def JSON_TAG_ARRAY : Nat := 3
def JSON_TAG_OBJECT : Nat := 4
def JSON_TAG_NULL : Nat := 0xF

/-- The set of declared `JsonTag` enumerators. -/
def isJsonTag (t : Nat) : Prop :=
  t = JSON_TAG_NUMBER ∨ t = JSON_TAG_STRING ∨ t = JSON_TAG_BOOL ∨
  t = JSON_TAG_ARRAY ∨ t = JSON_TAG_OBJECT ∨ t = JSON_TAG_NULL

instance (t : Nat) : Decidable (isJsonTag t) := by
  unfold isJsonTag; infer_instance

/-- `struct JsonValue`: its entire state is the 64-bit word `data.i`
(the union member `data.f` is the same bits viewed as a double). -/
structure JsonValue where
  i : Nat
  deriving DecidableEq, Repr

/-- `(int64_t)w` for a 64-bit word `w`: two's-complement reinterpretation. -/
def toInt64 (w : Nat) : Int := if w < 2 ^ 63 then (w : Int) else (w : Int) - 2 ^ 64

/-- `JsonValue()` — the default constructor: `data.i = JSON_VALUE_NULL`. -/
def JsonValue.nullValue : JsonValue := ⟨JSON_VALUE_NULL⟩

/-- `explicit JsonValue(double x)` — `data.f = x`: the word is the bit pattern
of the double `x`. -/
def JsonValue.ofDouble (w : Nat) : JsonValue := ⟨w⟩

/-- `JsonValue(JsonTag tag, void *p)`:
`assert((int)tag <= JSON_VALUE_TAG_MASK); assert(x <= JSON_VALUE_PAYLOAD_MASK);`
then `data.i = JSON_VALUE_NAN_MASK | ((uint64_t)tag << JSON_VALUE_TAG_SHIFT) | x`.
An assert failure is modelled as `none`. -/
def JsonValue.mkTagged (tag : Nat) (p : Nat) : Option JsonValue :=
  if tag ≤ JSON_VALUE_TAG_MASK then
    if p ≤ JSON_VALUE_PAYLOAD_MASK then
      some ⟨JSON_VALUE_NAN_MASK ||| (tag <<< JSON_VALUE_TAG_SHIFT) ||| p⟩
    else none
  else none

/-- `explicit operator bool() const { return data.i != JSON_VALUE_NULL; }`. -/
def JsonValue.toBoolOp (v : JsonValue) : Bool := v.i != JSON_VALUE_NULL

/-- `bool isDouble() const { return (int64_t)data.i <= (int64_t)JSON_VALUE_NAN_MASK; }`. -/
def JsonValue.isDouble (v : JsonValue) : Bool :=
  decide (toInt64 v.i ≤ toInt64 JSON_VALUE_NAN_MASK)

/-- `JsonTag getTag() const`: `isDouble() ? JSON_TAG_NUMBER :
JsonTag((data.i >> JSON_VALUE_TAG_SHIFT) & JSON_VALUE_TAG_MASK)`. -/
def JsonValue.getTag (v : JsonValue) : Nat :=
  if v.isDouble then JSON_TAG_NUMBER
  else (v.i >>> JSON_VALUE_TAG_SHIFT) &&& JSON_VALUE_TAG_MASK

/-- `uint64_t getPayload() const { assert(!isDouble()); return data.i & JSON_VALUE_PAYLOAD_MASK; }`. -/
def JsonValue.getPayload (v : JsonValue) : Option Nat :=
  if v.isDouble then none else some (v.i &&& JSON_VALUE_PAYLOAD_MASK)

/-- `double toNumber() const { assert(getTag() == JSON_TAG_NUMBER); return data.f; }` —
the returned double has the same bits as the stored word. -/
def JsonValue.toNumber (v : JsonValue) : Option Nat :=
  if v.getTag = JSON_TAG_NUMBER then some v.i else none

/-- `bool toBool() const { assert(getTag() == JSON_TAG_BOOL); return (bool)getPayload(); }`. -/
def JsonValue.toBool (v : JsonValue) : Option Bool :=
  if v.getTag = JSON_TAG_BOOL then (v.getPayload).map (fun p => p != 0) else none

/-- `char *toString() const { assert(getTag() == JSON_TAG_STRING); return (char *)getPayload(); }` —
the result is the payload reinterpreted as a pointer. -/
def JsonValue.toString (v : JsonValue) : Option Nat :=
  if v.getTag = JSON_TAG_STRING then v.getPayload else none

/-- `JsonElement *toElement() const { assert(getTag() == JSON_TAG_ARRAY); return (JsonElement *)getPayload(); }`. -/
def JsonValue.toElement (v : JsonValue) : Option Nat :=
  if v.getTag = JSON_TAG_ARRAY then v.getPayload else none

/-- `JsonPair *toPair() const { assert(getTag() == JSON_TAG_OBJECT); return (JsonPair *)getPayload(); }`. -/
def JsonValue.toPair (v : JsonValue) : Option Nat :=
  if v.getTag = JSON_TAG_OBJECT then v.getPayload else none

/-- IEEE-754 binary64 NaN: exponent field (bits 52–62) all ones and
mantissa field (bits 0–51) nonzero. -/
def isNaNBits (w : Nat) : Prop := (w / 2 ^ 52) % 2 ^ 11 = 2 ^ 11 - 1 ∧ w % 2 ^ 52 ≠ 0

instance (w : Nat) : Decidable (isNaNBits w) := by
  unfold isNaNBits; infer_instance

/-! ### Arithmetic characterisations of the bit-level definitions -/

/-- The word stored by the tagged constructor, as arithmetic: the three OR-ed
fields (NaN mask at bits 51–62, tag at bits 47–50, payload at bits 0–46) are
disjoint, so bitwise OR is addition. -/
theorem mkTagged_word (t p : Nat) (ht : t ≤ JSON_VALUE_TAG_MASK)
    (hp : p ≤ JSON_VALUE_PAYLOAD_MASK) :
    JsonValue.mkTagged t p = some ⟨JSON_VALUE_NAN_MASK + t * 2 ^ 47 + p⟩ := by
  unfold JsonValue.mkTagged
  rw [if_pos ht, if_pos hp]
  have hsh : t <<< JSON_VALUE_TAG_SHIFT = t * 2 ^ 47 := by
    rw [Nat.shiftLeft_eq]; rfl
  have h1 : JSON_VALUE_NAN_MASK ||| t * 2 ^ 47 = JSON_VALUE_NAN_MASK + t * 2 ^ 47 := by
    have hb : t * 2 ^ 47 < 2 ^ 51 := by
      have : t ≤ 15 := ht
      calc t * 2 ^ 47 ≤ 15 * 2 ^ 47 := Nat.mul_le_mul_right _ this
        _ < 2 ^ 51 := by norm_num
    have := (Nat.mul_add_lt_is_or hb 0xFFF).symm
    have hmask : 2 ^ 51 * 0xFFF = JSON_VALUE_NAN_MASK := by norm_num [JSON_VALUE_NAN_MASK]
    rw [hmask] at this
    exact this
  have h2 : (JSON_VALUE_NAN_MASK + t * 2 ^ 47) ||| p = JSON_VALUE_NAN_MASK + t * 2 ^ 47 + p := by
    have hb : p < 2 ^ 47 := by
      have : p ≤ 2 ^ 47 - 1 := hp
      omega
    have hfact : JSON_VALUE_NAN_MASK + t * 2 ^ 47 = 2 ^ 47 * (0xFFF0 + t) := by
      norm_num [JSON_VALUE_NAN_MASK]; ring
    rw [hfact]
    have := (Nat.mul_add_lt_is_or hb (0xFFF0 + t)).symm
    omega
  rw [hsh, h1, h2]

/-- `getTag` in arithmetic form. -/
theorem getTag_eq (v : JsonValue) :
    v.getTag = if toInt64 v.i ≤ toInt64 JSON_VALUE_NAN_MASK then JSON_TAG_NUMBER
               else (v.i / 2 ^ 47) % 16 := by
  unfold JsonValue.getTag JsonValue.isDouble
  have h : (v.i >>> JSON_VALUE_TAG_SHIFT) &&& JSON_VALUE_TAG_MASK = (v.i / 2 ^ 47) % 16 := by
    have h1 : v.i >>> JSON_VALUE_TAG_SHIFT = v.i / 2 ^ 47 := by
      rw [Nat.shiftRight_eq_div_pow]; rfl
    have h2 : (v.i / 2 ^ 47) &&& JSON_VALUE_TAG_MASK = (v.i / 2 ^ 47) % 16 := by
      have := Nat.and_pow_two_sub_one_eq_mod (v.i / 2 ^ 47) 4
      norm_num at this
      exact this
    rw [h1, h2]
  by_cases hd : toInt64 v.i ≤ toInt64 JSON_VALUE_NAN_MASK <;> simp [hd, h]

/-- `getPayload` in arithmetic form. -/
theorem getPayload_eq (v : JsonValue) :
    v.getPayload = if toInt64 v.i ≤ toInt64 JSON_VALUE_NAN_MASK then none
                   else some (v.i % 2 ^ 47) := by
  unfold JsonValue.getPayload JsonValue.isDouble
  have h : v.i &&& JSON_VALUE_PAYLOAD_MASK = v.i % 2 ^ 47 := by
    have := Nat.and_pow_two_sub_one_eq_mod v.i 47
    norm_num at this ⊢
    convert this using 2
  by_cases hd : toInt64 v.i ≤ toInt64 JSON_VALUE_NAN_MASK <;> simp [hd, h]

/-- For a word below `2^63` the signed cast is the identity. -/
theorem toInt64_of_lt {w : Nat} (h : w < 2 ^ 63) : toInt64 w = (w : Int) := by
  unfold toInt64; rw [if_pos h]

/-- For a word with the sign bit set the signed cast subtracts `2^64`. -/
theorem toInt64_of_ge {w : Nat} (h : 2 ^ 63 ≤ w) : toInt64 w = (w : Int) - 2 ^ 64 := by
  unfold toInt64; rw [if_neg (by omega)]

/-- `isDouble` unfolded to its defining signed comparison. -/
theorem isDouble_iff (v : JsonValue) :
    v.isDouble = true ↔ toInt64 v.i ≤ (0x7FF8000000000000 : Int) := by
  have h : toInt64 JSON_VALUE_NAN_MASK = (0x7FF8000000000000 : Int) := by
    unfold toInt64 JSON_VALUE_NAN_MASK
    norm_num
  unfold JsonValue.isDouble
  rw [h, decide_eq_true_iff]

/-- A word in the tagged range (sign bit clear, strictly above the NaN mask)
is not classified as a double. -/
theorem not_isDouble_of_range {w : Nat} (h1 : JSON_VALUE_NAN_MASK < w) (h2 : w < 2 ^ 63) :
    JsonValue.isDouble ⟨w⟩ = false := by
  apply Bool.eq_false_iff.mpr
  intro hcon
  rw [isDouble_iff] at hcon
  rw [show (JsonValue.mk w).i = w from rfl] at hcon
  rw [toInt64_of_lt h2] at hcon
  unfold JSON_VALUE_NAN_MASK at h1
  omega

/-- The word built by the tagged constructor fits below the sign bit. -/
theorem mkTagged_word_lt (t p : Nat) (ht : t ≤ JSON_VALUE_TAG_MASK)
    (hp : p ≤ JSON_VALUE_PAYLOAD_MASK) :
    JSON_VALUE_NAN_MASK + t * 2 ^ 47 + p < 2 ^ 63 := by
  unfold JSON_VALUE_TAG_MASK at ht
  unfold JSON_VALUE_PAYLOAD_MASK at hp
  unfold JSON_VALUE_NAN_MASK
  norm_num at ht hp ⊢
  nlinarith

/-- `getTag` of a tagged word with a nonzero tag-or-payload is the tag field. -/
theorem getTag_mkTagged (t p : Nat) (ht : t ≤ JSON_VALUE_TAG_MASK)
    (hp : p ≤ JSON_VALUE_PAYLOAD_MASK) (hpos : 0 < t * 2 ^ 47 + p) :
    JsonValue.getTag ⟨JSON_VALUE_NAN_MASK + t * 2 ^ 47 + p⟩ = t := by
  have hlt := mkTagged_word_lt t p ht hp
  have hgt : JSON_VALUE_NAN_MASK < JSON_VALUE_NAN_MASK + t * 2 ^ 47 + p := by omega
  have hnd := not_isDouble_of_range hgt hlt
  unfold JsonValue.getTag
  rw [hnd]
  have h1 : (JSON_VALUE_NAN_MASK + t * 2 ^ 47 + p) >>> JSON_VALUE_TAG_SHIFT
      = (JSON_VALUE_NAN_MASK + t * 2 ^ 47 + p) / 2 ^ 47 := by
    rw [Nat.shiftRight_eq_div_pow]; rfl
  have h2 : ∀ x : Nat, x &&& JSON_VALUE_TAG_MASK = x % 16 := by
    intro x
    have := Nat.and_pow_two_sub_one_eq_mod x 4
    norm_num at this
    exact this
  simp only [Bool.false_eq_true, if_false, h1, h2]
  unfold JSON_VALUE_NAN_MASK JSON_VALUE_PAYLOAD_MASK JSON_VALUE_TAG_MASK at *
  omega

/-- `getPayload` of a tagged word with a nonzero tag-or-payload is the payload. -/
theorem getPayload_mkTagged (t p : Nat) (ht : t ≤ JSON_VALUE_TAG_MASK)
    (hp : p ≤ JSON_VALUE_PAYLOAD_MASK) (hpos : 0 < t * 2 ^ 47 + p) :
    JsonValue.getPayload ⟨JSON_VALUE_NAN_MASK + t * 2 ^ 47 + p⟩ = some p := by
  have hlt := mkTagged_word_lt t p ht hp
  have hgt : JSON_VALUE_NAN_MASK < JSON_VALUE_NAN_MASK + t * 2 ^ 47 + p := by omega
  have hnd := not_isDouble_of_range hgt hlt
  unfold JsonValue.getPayload
  rw [hnd]
  have h2 : ∀ x : Nat, x &&& JSON_VALUE_PAYLOAD_MASK = x % 2 ^ 47 := by
    intro x
    have := Nat.and_pow_two_sub_one_eq_mod x 47
    norm_num at this ⊢
    exact this
  simp only [Bool.false_eq_true, if_false, h2, Option.some_inj]
  unfold JSON_VALUE_NAN_MASK JSON_VALUE_TAG_MASK JSON_VALUE_PAYLOAD_MASK at *
  omega

/-- A non-NaN double bit pattern is classified as a double. -/
theorem isDouble_of_not_nan {w : Nat} (hw : w < 2 ^ 64) (hn : ¬ isNaNBits w) :
    JsonValue.isDouble ⟨w⟩ = true := by
  rw [isDouble_iff]
  rw [show (JsonValue.mk w).i = w from rfl]
  unfold isNaNBits at hn
  unfold toInt64
  by_cases hA : (w / 2 ^ 52) % 2 ^ 11 = 2 ^ 11 - 1
  · have hB : w % 2 ^ 52 = 0 := by
      by_contra hB
      exact hn ⟨hA, hB⟩
    split <;> omega
  · split <;> omega

/-- C1: for every double bit pattern that is not a NaN, `JsonValue(double)`
yields a value with `getTag() == JSON_TAG_NUMBER` whose `toNumber()` returns
exactly the stored bits; conversely, a word built by the tagged constructor
for a tag other than `JSON_TAG_NUMBER` never has `getTag() == JSON_TAG_NUMBER`. -/
theorem c1_number_detection :
    (∀ w : Nat, w < 2 ^ 64 → ¬ isNaNBits w →
      (JsonValue.ofDouble w).getTag = JSON_TAG_NUMBER ∧
      (JsonValue.ofDouble w).toNumber = some w) ∧
    (∀ t p : Nat, isJsonTag t → t ≠ JSON_TAG_NUMBER →
      ∀ v : JsonValue, JsonValue.mkTagged t p = some v →
        v.getTag ≠ JSON_TAG_NUMBER) := by
  constructor
  · intro w hw hn
    have hd := isDouble_of_not_nan hw hn
    have htag : (JsonValue.ofDouble w).getTag = JSON_TAG_NUMBER := by
      unfold JsonValue.getTag JsonValue.ofDouble at *
      rw [hd]
      rfl
    refine ⟨htag, ?_⟩
    unfold JsonValue.toNumber
    rw [htag]
    rfl
  · intro t p htag hne v hmk
    have ht : t ≤ JSON_VALUE_TAG_MASK := by
      rcases htag with h | h | h | h | h | h <;> subst h <;> decide
    have hp : p ≤ JSON_VALUE_PAYLOAD_MASK := by
      by_contra hc
      unfold JsonValue.mkTagged at hmk
      rw [if_pos ht, if_neg hc] at hmk
      exact Option.noConfusion hmk
    have hv : v = ⟨JSON_VALUE_NAN_MASK + t * 2 ^ 47 + p⟩ := by
      have := mkTagged_word t p ht hp
      rw [this] at hmk
      exact (Option.some_inj.mp hmk).symm
    have ht1 : 1 ≤ t := by
      rcases htag with h | h | h | h | h | h <;> subst h <;> first | exact absurd rfl hne | decide
    have hpos : 0 < t * 2 ^ 47 + p := by positivity
    rw [hv, getTag_mkTagged t p ht hp hpos]
    exact hne

/-- C1 witness: the bits of `1.0` (`0x3FF0000000000000`) decode as a number,
and the string-tagged word with payload 0 does not. -/
theorem c1_number_detection_witness :
    ((JsonValue.ofDouble 0x3FF0000000000000).getTag = JSON_TAG_NUMBER ∧
     (JsonValue.ofDouble 0x3FF0000000000000).toNumber = some 0x3FF0000000000000) ∧
    JsonValue.getTag ⟨0x7FF8800000000000⟩ ≠ JSON_TAG_NUMBER :=
  ⟨c1_number_detection.1 0x3FF0000000000000 (by norm_num) (by decide),
   c1_number_detection.2 JSON_TAG_STRING 0 (by decide) (by decide)
     ⟨0x7FF8800000000000⟩ (by decide)⟩

/-- C2: for every tag in `{STRING, BOOL, ARRAY, OBJECT, NULL}` and every
payload fitting in 47 bits, `JsonValue(tag, p)` succeeds and `getTag()` /
`getPayload()` recover exactly `tag` and `p`. -/
theorem c2_tagged_roundtrip :
    ∀ t p : Nat,
      (t = JSON_TAG_STRING ∨ t = JSON_TAG_BOOL ∨ t = JSON_TAG_ARRAY ∨
       t = JSON_TAG_OBJECT ∨ t = JSON_TAG_NULL) →
      p ≤ JSON_VALUE_PAYLOAD_MASK →
      ∃ v : JsonValue, JsonValue.mkTagged t p = some v ∧
        v.getTag = t ∧ v.getPayload = some p := by
  intro t p htag hp
  have ht : t ≤ JSON_VALUE_TAG_MASK := by
    rcases htag with h | h | h | h | h <;> subst h <;> decide
  have ht1 : 1 ≤ t := by
    rcases htag with h | h | h | h | h <;> subst h <;> decide
  have hpos : 0 < t * 2 ^ 47 + p := by positivity
  exact ⟨⟨JSON_VALUE_NAN_MASK + t * 2 ^ 47 + p⟩, mkTagged_word t p ht hp,
    getTag_mkTagged t p ht hp hpos, getPayload_mkTagged t p ht hp hpos⟩

/-- C2 witness: round-trip at tag `JSON_TAG_ARRAY`, payload `42`. -/
theorem c2_tagged_roundtrip_witness :
    ∃ v : JsonValue, JsonValue.mkTagged JSON_TAG_ARRAY 42 = some v ∧
      v.getTag = JSON_TAG_ARRAY ∧ v.getPayload = some 42 :=
  c2_tagged_roundtrip JSON_TAG_ARRAY 42 (by decide) (by decide)

/-- A value classified as a double has `getTag() == JSON_TAG_NUMBER`. -/
theorem getTag_of_isDouble {v : JsonValue} (h : v.isDouble = true) :
    v.getTag = JSON_TAG_NUMBER := by
  unfold JsonValue.getTag
  rw [h]
  rfl

/-- A value whose tag is not `JSON_TAG_NUMBER` is not classified as a double. -/
theorem not_isDouble_of_getTag_ne {v : JsonValue} (h : v.getTag ≠ JSON_TAG_NUMBER) :
    v.isDouble = false := by
  cases hv : v.isDouble
  · rfl
  · exact absurd (getTag_of_isDouble hv) h

/-- C4: each accessor is guarded by its tag assertion: when the tag matches,
the assertion passes and the stored payload (resp. the double bits) is
returned; on any other tag the assertion trips (`none`), never silently
returning data. -/
theorem c4_guarded_accessors :
    ∀ v : JsonValue,
      ((v.getTag = JSON_TAG_NUMBER → v.toNumber = some v.i) ∧
       (v.getTag ≠ JSON_TAG_NUMBER → v.toNumber = none)) ∧
      ((v.getTag = JSON_TAG_BOOL →
          v.toBool = some (v.i &&& JSON_VALUE_PAYLOAD_MASK != 0)) ∧
       (v.getTag ≠ JSON_TAG_BOOL → v.toBool = none)) ∧
      ((v.getTag = JSON_TAG_STRING →
          v.toString = some (v.i &&& JSON_VALUE_PAYLOAD_MASK)) ∧
       (v.getTag ≠ JSON_TAG_STRING → v.toString = none)) ∧
      ((v.getTag = JSON_TAG_ARRAY →
          v.toElement = some (v.i &&& JSON_VALUE_PAYLOAD_MASK)) ∧
       (v.getTag ≠ JSON_TAG_ARRAY → v.toElement = none)) ∧
      ((v.getTag = JSON_TAG_OBJECT →
          v.toPair = some (v.i &&& JSON_VALUE_PAYLOAD_MASK)) ∧
       (v.getTag ≠ JSON_TAG_OBJECT → v.toPair = none)) := by
  intro v
  refine ⟨⟨?_, ?_⟩, ⟨?_, ?_⟩, ⟨?_, ?_⟩, ⟨?_, ?_⟩, ⟨?_, ?_⟩⟩
  · intro h
    unfold JsonValue.toNumber
    rw [if_pos h]
  · intro h
    unfold JsonValue.toNumber
    rw [if_neg h]
  · intro h
    have hnd : v.isDouble = false := not_isDouble_of_getTag_ne (by rw [h]; decide)
    simp [JsonValue.toBool, JsonValue.getPayload, h, hnd]
  · intro h
    unfold JsonValue.toBool
    rw [if_neg h]
  · intro h
    have hnd : v.isDouble = false := not_isDouble_of_getTag_ne (by rw [h]; decide)
    simp [JsonValue.toString, JsonValue.getPayload, h, hnd]
  · intro h
    unfold JsonValue.toString
    rw [if_neg h]
  · intro h
    have hnd : v.isDouble = false := not_isDouble_of_getTag_ne (by rw [h]; decide)
    simp [JsonValue.toElement, JsonValue.getPayload, h, hnd]
  · intro h
    unfold JsonValue.toElement
    rw [if_neg h]
  · intro h
    have hnd : v.isDouble = false := not_isDouble_of_getTag_ne (by rw [h]; decide)
    simp [JsonValue.toPair, JsonValue.getPayload, h, hnd]
  · intro h
    unfold JsonValue.toPair
    rw [if_neg h]

/-- C4 witness: on the bool-tagged word `0x7FF9000000000001` the matching
accessor returns the payload and a mismatched accessor trips its assertion. -/
theorem c4_guarded_accessors_witness :
    JsonValue.toBool ⟨0x7FF9000000000001⟩
        = some ((0x7FF9000000000001 : Nat) &&& JSON_VALUE_PAYLOAD_MASK != 0) ∧
    JsonValue.toNumber ⟨0x7FF9000000000001⟩ = none :=
  ⟨(c4_guarded_accessors ⟨0x7FF9000000000001⟩).2.1.1 (by decide),
   (c4_guarded_accessors ⟨0x7FF9000000000001⟩).1.2 (by decide)⟩

/-- C5: the tagged constructor's assertions — the tag fits in 4 bits
(automatic for every declared enumerator) and the pointer fits in 47 bits —
both hold under the precondition, and the stored word keeps every payload bit. -/
theorem c5_ctor_payload_width :
    ∀ t p : Nat, isJsonTag t → p ≤ JSON_VALUE_PAYLOAD_MASK →
      t ≤ JSON_VALUE_TAG_MASK ∧
      ∃ v : JsonValue, JsonValue.mkTagged t p = some v ∧
        v.i &&& JSON_VALUE_PAYLOAD_MASK = p := by
  intro t p htag hp
  have ht : t ≤ JSON_VALUE_TAG_MASK := by
    rcases htag with h | h | h | h | h | h <;> subst h <;> decide
  refine ⟨ht, ⟨JSON_VALUE_NAN_MASK + t * 2 ^ 47 + p⟩, mkTagged_word t p ht hp, ?_⟩
  have hmask : JSON_VALUE_PAYLOAD_MASK = 2 ^ 47 - 1 := by
    norm_num [JSON_VALUE_PAYLOAD_MASK]
  have h2 := Nat.and_pow_two_sub_one_eq_mod (JSON_VALUE_NAN_MASK + t * 2 ^ 47 + p) 47
  rw [show (JsonValue.mk (JSON_VALUE_NAN_MASK + t * 2 ^ 47 + p)).i
      = JSON_VALUE_NAN_MASK + t * 2 ^ 47 + p from rfl, hmask, h2]
  unfold JSON_VALUE_NAN_MASK JSON_VALUE_TAG_MASK at *
  rw [hmask] at hp
  omega

/-- C5 witness: tag `JSON_TAG_ARRAY` (3) with payload 5. -/
theorem c5_ctor_payload_width_witness :
    3 ≤ JSON_VALUE_TAG_MASK ∧
    ∃ v : JsonValue, JsonValue.mkTagged 3 5 = some v ∧
      v.i &&& JSON_VALUE_PAYLOAD_MASK = 5 :=
  c5_ctor_payload_width 3 5 (by decide) (by decide)

/-- C9: the default constructor stores exactly `JSON_VALUE_NULL`, which is the
word `JsonValue(JSON_TAG_NULL, nullptr)` builds, and its tag is
`JSON_TAG_NULL`; `operator bool()` is `false` exactly on that one bit pattern,
so a NULL-tagged value with a nonzero payload converts to `true`. -/
theorem c9_default_null :
    JsonValue.nullValue.i = JSON_VALUE_NULL ∧
    JsonValue.mkTagged JSON_TAG_NULL 0 = some JsonValue.nullValue ∧
    JsonValue.nullValue.getTag = JSON_TAG_NULL ∧
    (∀ v : JsonValue, v.toBoolOp = false ↔ v.i = JSON_VALUE_NULL) ∧
    (∀ p : Nat, 0 < p → p ≤ JSON_VALUE_PAYLOAD_MASK →
      ∀ v : JsonValue, JsonValue.mkTagged JSON_TAG_NULL p = some v →
        v.getTag = JSON_TAG_NULL ∧ v.toBoolOp = true) := by
  refine ⟨rfl, by decide, by decide, ?_, ?_⟩
  · intro v
    unfold JsonValue.toBoolOp
    simp
  · intro p hp0 hp v hmk
    have ht : JSON_TAG_NULL ≤ JSON_VALUE_TAG_MASK := by decide
    have hv : v = ⟨JSON_VALUE_NAN_MASK + JSON_TAG_NULL * 2 ^ 47 + p⟩ := by
      rw [mkTagged_word _ _ ht hp] at hmk
      exact (Option.some_inj.mp hmk).symm
    have hpos : 0 < JSON_TAG_NULL * 2 ^ 47 + p := by positivity
    subst hv
    refine ⟨getTag_mkTagged _ _ ht hp hpos, ?_⟩
    unfold JsonValue.toBoolOp
    simp only [bne_iff_ne, Ne]
    intro hcon
    unfold JSON_VALUE_NAN_MASK JSON_TAG_NULL JSON_VALUE_NULL at hcon
    omega

/-- C9 witness: `JsonValue(JSON_TAG_NULL, (void*)1)` is NULL-tagged yet
converts to `true`. -/
theorem c9_default_null_witness :
    JsonValue.getTag ⟨0x7FF8000000000000 + 0xF * 2 ^ 47 + 1⟩ = JSON_TAG_NULL ∧
    JsonValue.toBoolOp ⟨0x7FF8000000000000 + 0xF * 2 ^ 47 + 1⟩ = true :=
  c9_default_null.2.2.2.2 1 (by decide) (by decide)
    ⟨0x7FF8000000000000 + 0xF * 2 ^ 47 + 1⟩ (by decide)

/-- C10 counterexample: the word `0x7FF8000000000001` — exactly what
`JsonValue(JSON_TAG_NUMBER, (void*)1)` builds — has
`getTag() == JSON_TAG_NUMBER` although its signed 64-bit value is strictly
greater than `(int64_t)JSON_VALUE_NAN_MASK`, so `getTag() == JSON_TAG_NUMBER`
does not hold *exactly* for the words with signed value `≤ 0x7FF8000000000000`. -/
theorem c10_counterexample :
    JsonValue.mkTagged JSON_TAG_NUMBER 1 = some ⟨0x7FF8000000000001⟩ ∧
    JsonValue.getTag ⟨0x7FF8000000000001⟩ = JSON_TAG_NUMBER ∧
    ¬ toInt64 0x7FF8000000000001 ≤ toInt64 JSON_VALUE_NAN_MASK := by
  decide

/-- C10 amended: `isDouble()` holds exactly for the words whose signed value is
`≤ 0x7FF8000000000000`; `getTag()` returns `JSON_TAG_NUMBER` exactly for the
words that satisfy `isDouble()` *or* whose tag field (bits 47–50) is zero;
every word with the sign bit set, and the `+infinity` pattern, is classified
as a number; and every word the tagged constructor builds has the sign bit
clear and signed value `≥ 0x7FF8000000000000` — strictly greater whenever the
tag or the payload is nonzero (equality occurs for `JSON_TAG_NUMBER` with a
null payload). -/
theorem c10_number_classification :
    (∀ v : JsonValue, v.isDouble = true ↔ toInt64 v.i ≤ (0x7FF8000000000000 : Int)) ∧
    (∀ v : JsonValue, v.getTag = JSON_TAG_NUMBER ↔
      (toInt64 v.i ≤ (0x7FF8000000000000 : Int) ∨ (v.i >>> 47) &&& 0xF = 0)) ∧
    (∀ v : JsonValue, v.i < 2 ^ 64 → 2 ^ 63 ≤ v.i → v.getTag = JSON_TAG_NUMBER) ∧
    JsonValue.getTag ⟨0x7FF0000000000000⟩ = JSON_TAG_NUMBER ∧
    (∀ t p : Nat, t ≤ JSON_VALUE_TAG_MASK → p ≤ JSON_VALUE_PAYLOAD_MASK →
      ∀ v : JsonValue, JsonValue.mkTagged t p = some v →
        v.i < 2 ^ 63 ∧ (0x7FF8000000000000 : Int) ≤ toInt64 v.i ∧
        (0 < t * 2 ^ 47 + p → (0x7FF8000000000000 : Int) < toInt64 v.i)) := by
  refine ⟨isDouble_iff, ?_, ?_, by decide, ?_⟩
  · intro v
    unfold JsonValue.getTag
    by_cases hd : v.isDouble
    · rw [if_pos hd]
      simp only [true_iff]
      exact Or.inl ((isDouble_iff v).mp hd)
    · rw [if_neg hd]
      have hnd : ¬ toInt64 v.i ≤ (0x7FF8000000000000 : Int) := by
        intro hc
        exact hd ((isDouble_iff v).mpr hc)
      simp only [hnd, false_or]
      unfold JSON_VALUE_TAG_SHIFT JSON_VALUE_TAG_MASK JSON_TAG_NUMBER
      exact Iff.rfl
  · intro v hv64 hv63
    apply getTag_of_isDouble
    rw [isDouble_iff, toInt64_of_ge hv63]
    have : (v.i : Int) < 2 ^ 64 := by exact_mod_cast hv64
    omega
  · intro t p ht hp v hmk
    have hv : v = ⟨JSON_VALUE_NAN_MASK + t * 2 ^ 47 + p⟩ := by
      rw [mkTagged_word _ _ ht hp] at hmk
      exact (Option.some_inj.mp hmk).symm
    subst hv
    have hlt := mkTagged_word_lt t p ht hp
    rw [show (JsonValue.mk (JSON_VALUE_NAN_MASK + t * 2 ^ 47 + p)).i
        = JSON_VALUE_NAN_MASK + t * 2 ^ 47 + p from rfl]
    rw [toInt64_of_lt hlt]
    unfold JSON_VALUE_NAN_MASK at *
    refine ⟨hlt, by push_cast; omega, fun hpos => by push_cast; omega⟩

/-- C10 amended witness: the sign-bit word `0x8000000000000000` is a number,
and the word of `JsonValue(JSON_TAG_BOOL, (void*)2)` sits strictly above the
NaN mask. -/
theorem c10_number_classification_witness :
    JsonValue.getTag ⟨0x8000000000000000⟩ = JSON_TAG_NUMBER ∧
    (0x7FF8000000000000 : Int) < toInt64 (JsonValue.mk 0x7FF9000000000002).i :=
  ⟨c10_number_classification.2.2.1 ⟨0x8000000000000000⟩ (by norm_num) (by norm_num),
   (c10_number_classification.2.2.2.2 2 2 (by decide) (by decide)
     ⟨0x7FF9000000000002⟩ (by decide)).2.2 (by norm_num)⟩

/-! ### The parse status enumeration -/

/-- `enum JsonParseStatus` from gason.h: the success value plus the error
values, in declaration order. -/
inductive JsonParseStatus where
  | JSON_PARSE_OK
  | JSON_PARSE_BAD_NUMBER
  | JSON_PARSE_BAD_STRING
  | JSON_PARSE_UNKNOWN_IDENTIFIER
  | JSON_PARSE_OVERFLOW
  | JSON_PARSE_UNDERFLOW
  | JSON_PARSE_MISMATCH_BRACKET
  | JSON_PARSE_UNEXPECTED_CHARACTER
  deriving DecidableEq, Repr, Fintype

/-- The declared status values, in declaration order. -/
def allStatuses : List JsonParseStatus :=
  [.JSON_PARSE_OK, .JSON_PARSE_BAD_NUMBER, .JSON_PARSE_BAD_STRING,
   .JSON_PARSE_UNKNOWN_IDENTIFIER, .JSON_PARSE_OVERFLOW, .JSON_PARSE_UNDERFLOW,
   .JSON_PARSE_MISMATCH_BRACKET, .JSON_PARSE_UNEXPECTED_CHARACTER]

/-- The error (non-`JSON_PARSE_OK`) status values. -/
def errorStatuses : List JsonParseStatus :=
  [.JSON_PARSE_BAD_NUMBER, .JSON_PARSE_BAD_STRING, .JSON_PARSE_UNKNOWN_IDENTIFIER,
   .JSON_PARSE_OVERFLOW, .JSON_PARSE_UNDERFLOW, .JSON_PARSE_MISMATCH_BRACKET,
   .JSON_PARSE_UNEXPECTED_CHARACTER]

/-- C3 counterexample: `JsonParseStatus` has eight values in total — the
success kind plus *seven* error kinds, not eight error kinds as claimed. -/
theorem c3_counterexample :
    Fintype.card JsonParseStatus = 8 ∧
    (Finset.univ.filter
      (fun s : JsonParseStatus => s ≠ JsonParseStatus.JSON_PARSE_OK)).card = 7 := by
  decide

/-- C3 amended: the status type is closed and exhaustive — every status value
is one of the eight declared values (`Ok` plus the seven error kinds), the
declared values are pairwise distinct, and every non-`Ok` status is exactly
one of the seven error kinds. -/
theorem c3_status_taxonomy :
    (∀ s : JsonParseStatus, s ∈ allStatuses) ∧
    allStatuses.Nodup ∧ allStatuses.length = 8 ∧
    (∀ s : JsonParseStatus, s ≠ JsonParseStatus.JSON_PARSE_OK →
      s ∈ errorStatuses ∧ errorStatuses.count s = 1) ∧
    errorStatuses.Nodup ∧ errorStatuses.length = 7 := by
  decide

/-- C3 witness: `JSON_PARSE_BAD_NUMBER` is a rejection and maps to exactly
one error kind. -/
theorem c3_status_taxonomy_witness :
    JsonParseStatus.JSON_PARSE_BAD_NUMBER ∈ errorStatuses ∧
    errorStatuses.count JsonParseStatus.JSON_PARSE_BAD_NUMBER = 1 :=
  c3_status_taxonomy.2.2.2.1 JsonParseStatus.JSON_PARSE_BAD_NUMBER (by decide)

/-! ### Idempotence and constness of the read accessors

Every read accessor of `JsonValue` is a `const` member function whose body
only reads `data.i`.  A call is embedded state-passing style: it returns the
result together with the object state after the call. -/

/-- A call to `getTag() const`: result plus post-call object state. -/
def JsonValue.getTagCall (v : JsonValue) : Nat × JsonValue := (v.getTag, v)

/-- A call to `toNumber() const`: result plus post-call object state. -/
def JsonValue.toNumberCall (v : JsonValue) : Option Nat × JsonValue := (v.toNumber, v)

/-- A call to `toBool() const`: result plus post-call object state. -/
def JsonValue.toBoolCall (v : JsonValue) : Option Bool × JsonValue := (v.toBool, v)

/-- A call to `toString() const`: result plus post-call object state. -/
def JsonValue.toStringCall (v : JsonValue) : Option Nat × JsonValue := (v.toString, v)

/-- A call to `toElement() const`: result plus post-call object state. -/
def JsonValue.toElementCall (v : JsonValue) : Option Nat × JsonValue := (v.toElement, v)

/-- A call to `toPair() const`: result plus post-call object state. -/
def JsonValue.toPairCall (v : JsonValue) : Option Nat × JsonValue := (v.toPair, v)

/-- C7: every read accessor leaves the stored 64-bit word unchanged (hence the
tree reachable through the stored payload pointer is unchanged), and calling
it again on the post-call state returns the identical result. -/
theorem c7_accessors_idempotent :
    ∀ v : JsonValue,
      (v.getTagCall.2 = v ∧ (v.getTagCall.2).getTagCall.1 = v.getTagCall.1) ∧
      (v.toNumberCall.2 = v ∧ (v.toNumberCall.2).toNumberCall.1 = v.toNumberCall.1) ∧
      (v.toBoolCall.2 = v ∧ (v.toBoolCall.2).toBoolCall.1 = v.toBoolCall.1) ∧
      (v.toStringCall.2 = v ∧ (v.toStringCall.2).toStringCall.1 = v.toStringCall.1) ∧
      (v.toElementCall.2 = v ∧ (v.toElementCall.2).toElementCall.1 = v.toElementCall.1) ∧
      (v.toPairCall.2 = v ∧ (v.toPairCall.2).toPairCall.1 = v.toPairCall.1) :=
  fun _ => ⟨⟨rfl, rfl⟩, ⟨rfl, rfl⟩, ⟨rfl, rfl⟩, ⟨rfl, rfl⟩, ⟨rfl, rfl⟩, ⟨rfl, rfl⟩⟩

/-! ### The arena allocator -/

/-- `JsonAllocator::Zone`, modelled by its capacity and the bytes handed out
so far (the `end` pointer of the source tracks the same information). -/
structure Zone where
  capacity : Nat
  used : Nat
  deriving DecidableEq, Repr

/-- `struct JsonAllocator`: the member initializer `Zone *head = nullptr`
makes a default-constructed allocator own no zones; the zone list is head
first. -/
structure JsonAllocator where
  zones : List Zone
  deriving DecidableEq, Repr

/-- The default constructor: `head = nullptr`, the empty zone list. -/
def JsonAllocator.new : JsonAllocator := ⟨[]⟩

/-- Default capacity of a freshly acquired zone. -/
def defaultZoneCapacity : Nat := 4096

/-- Modelled from the spec: the body of `JsonAllocator::allocate` is not under
src/ (the header only declares it).  §4.1: "on exhaustion it acquires a new
zone sized to satisfy the request (zone size ≥ a fixed default capacity, grown
if the single request exceeds it) and the call always yields writable memory
of exactly `size` bytes aligned to `alignment`".  The model returns the
allocator state after the call; a fresh allocator is exhausted by definition,
so the first call acquires the first zone. -/
def JsonAllocator.allocate (a : JsonAllocator) (n : Nat) (align : Nat) : JsonAllocator :=
  match a.zones with
  | [] => ⟨[⟨max defaultZoneCapacity n, n⟩]⟩
  | z :: zs =>
    let start := align * ((z.used + align - 1) / align)
    if start + n ≤ z.capacity then ⟨⟨z.capacity, start + n⟩ :: zs⟩
    else ⟨⟨max defaultZoneCapacity n, n⟩ :: z :: zs⟩

/-- C8: arena construction is side-effect-free — a newly constructed
`JsonAllocator` has `head == nullptr` (owns no zones); a zone is acquired only
on the first use of `allocate`. -/
theorem c8_arena_construction :
    JsonAllocator.new.zones = [] ∧
    (∀ n align : Nat, (JsonAllocator.new.allocate n align).zones.length = 1) :=
  ⟨rfl, fun _ _ => rfl⟩

/-! ### The parser, modelled from the spec

The body of `json_parse` is not under src/ — gason.h only declares
`JsonParseStatus json_parse(char *str, char **endptr, JsonValue *value,
JsonAllocator &allocator);`.  The definitions below model it from §4.3 of the
specification: a recursive-descent parse over the characters with whitespace
skipping, the literals `true`/`false`/`null`, strings with escape decoding
(including `\uXXXX` and surrogate pairs), numbers validated against the
grammar (optional `-`, integer part, optional fraction, optional exponent),
and arrays/objects whose element/pair lists are built in source order by
reversing a head-inserted accumulator at the closing bracket — the spec's
first sanctioned strategy. -/

/-- The document tree: arrays and objects keep their element/member lists in
link order, head first.  A number keeps its validated source lexeme (the
header stores the decoded double bits verbatim; IEEE-754 decoding and the
Overflow/Underflow magnitude classes are outside the ordering claim modelled
here). -/
inductive JValue where
  | jnull
  | jbool (b : Bool)
  | jnumber (lexeme : String)
  | jstring (s : String)
  | jarray (elems : List JValue)
  | jobject (members : List (String × JValue))

/-- §4.3: whitespace (space, tab, newline, carriage return) skipped between
tokens. -/
def isWsChar (c : Char) : Bool := c = ' ' || c = '\t' || c = '\n' || c = '\r'

/-- Drop leading whitespace. -/
def skipWs : List Char → List Char
  | [] => []
  | c :: cs => if isWsChar c then skipWs cs else c :: cs

/-- Value of one hex digit, if any. -/
def hexVal (c : Char) : Option Nat :=
  if c.isDigit then some (c.toNat - 48)
  else if 'a' ≤ c && c ≤ 'f' then some (c.toNat - 87)
  else if 'A' ≤ c && c ≤ 'F' then some (c.toNat - 55)
  else none

/-- Four hex digits of a `\uXXXX` escape; `none` when fewer than four hex
digits follow (a malformed `\u` is a bad string per §8). -/
def parseHex4 : List Char → Option (Nat × List Char)
  | c1 :: c2 :: c3 :: c4 :: rest =>
    match hexVal c1, hexVal c2, hexVal c3, hexVal c4 with
    | some h1, some h2, some h3, some h4 =>
      some (((h1 * 16 + h2) * 16 + h3) * 16 + h4, rest)
    | _, _, _, _ => none
  | _ => none

/-- String body after the opening quote: decode the §4.3 escapes
(`\"  \\  \/  \b  \f  \n  \r  \t  \uXXXX` with surrogate-pair combination)
up to the closing quote.  An unterminated string, an unknown escape, a short
`\u`, or an uncombinable surrogate is `JSON_PARSE_BAD_STRING`. -/
def parseStringBody (fuel : Nat) (cs : List Char) (acc : List Char) :
    Except JsonParseStatus (String × List Char) :=
  match fuel with
  | 0 => .error .JSON_PARSE_BAD_STRING
  | fuel + 1 =>
    match cs with
    | [] => .error .JSON_PARSE_BAD_STRING
    | '"' :: rest => .ok (String.mk acc.reverse, rest)
    | '\\' :: esc =>
      match esc with
      | [] => .error .JSON_PARSE_BAD_STRING
      | e :: rest =>
        if e = '"' then parseStringBody fuel rest ('"' :: acc)
        else if e = '\\' then parseStringBody fuel rest ('\\' :: acc)
        else if e = '/' then parseStringBody fuel rest ('/' :: acc)
        else if e = 'b' then parseStringBody fuel rest ('\x08' :: acc)
        else if e = 'f' then parseStringBody fuel rest ('\x0c' :: acc)
        else if e = 'n' then parseStringBody fuel rest ('\n' :: acc)
        else if e = 'r' then parseStringBody fuel rest ('\x0d' :: acc)
        else if e = 't' then parseStringBody fuel rest ('\t' :: acc)
        else if e = 'u' then
          match parseHex4 rest with
          | none => .error .JSON_PARSE_BAD_STRING
          | some (u, rest2) =>
            if 0xD800 ≤ u && u ≤ 0xDBFF then
              match rest2 with
              | '\\' :: 'u' :: rest3 =>
                match parseHex4 rest3 with
                | none => .error .JSON_PARSE_BAD_STRING
                | some (u2, rest4) =>
                  if 0xDC00 ≤ u2 && u2 ≤ 0xDFFF then
                    parseStringBody fuel rest4
                      (Char.ofNat (0x10000 + (u - 0xD800) * 0x400 + (u2 - 0xDC00)) :: acc)
                  else .error .JSON_PARSE_BAD_STRING
              | _ => .error .JSON_PARSE_BAD_STRING
            else if 0xDC00 ≤ u && u ≤ 0xDFFF then .error .JSON_PARSE_BAD_STRING
            else parseStringBody fuel rest2 (Char.ofNat u :: acc)
        else .error .JSON_PARSE_BAD_STRING
    | c :: rest => parseStringBody fuel rest (c :: acc)

/-- Characters a number token may contain. -/
def isNumChar (c : Char) : Bool :=
  c.isDigit || c = '-' || c = '+' || c = '.' || c = 'e' || c = 'E'

/-- Lex the maximal run of number-token characters. -/
def takeNumTok : List Char → List Char × List Char
  | [] => ([], [])
  | c :: cs =>
    if isNumChar c then
      let (tok, rest) := takeNumTok cs
      (c :: tok, rest)
    else ([], c :: cs)

/-- Drop leading decimal digits. -/
def digitsMany : List Char → List Char
  | [] => []
  | c :: cs => if c.isDigit then digitsMany cs else c :: cs

/-- Integer part: `0` alone, or a nonzero digit followed by digits. -/
def chompInt : List Char → Option (List Char)
  | [] => none
  | c :: cs =>
    if c = '0' then some cs
    else if c.isDigit then some (digitsMany cs)
    else none

/-- Optional fractional part: `.` followed by one or more digits. -/
def chompFrac : List Char → Option (List Char)
  | '.' :: cs =>
    match cs with
    | [] => none
    | c :: cs2 => if c.isDigit then some (digitsMany cs2) else none
  | cs => some cs

/-- Optional exponent part: `e`/`E`, optional sign, one or more digits. -/
def chompExp : List Char → Option (List Char)
  | [] => some []
  | c :: cs =>
    if c = 'e' || c = 'E' then
      match cs with
      | [] => none
      | s :: cs2 =>
        if s = '+' || s = '-' then
          match cs2 with
          | [] => none
          | d :: cs3 => if d.isDigit then some (digitsMany cs3) else none
        else if s.isDigit then some (digitsMany cs2)
        else none
    else some (c :: cs)

/-- §4.3 number grammar: optional `-`, integer part, optional fraction,
optional exponent — and nothing else in the token. -/
def validNumber (tok : List Char) : Bool :=
  let tok1 := match tok with
    | '-' :: cs => cs
    | cs => cs
  match chompInt tok1 with
  | none => false
  | some r1 =>
    match chompFrac r1 with
    | none => false
    | some r2 =>
      match chompExp r2 with
      | none => false
      | some r3 => r3.isEmpty

/-- Lex the maximal run of letters (a bare identifier). -/
def takeIdent : List Char → List Char × List Char
  | [] => ([], [])
  | c :: cs =>
    if c.isAlpha then
      let (tok, rest) := takeIdent cs
      (c :: tok, rest)
    else ([], c :: cs)

/-- The recursive-descent modes: a value, or the inside of an array/object
with the head-inserted accumulator of what was parsed so far. -/
inductive ParseMode where
  | value
  | elemsStart
  | elemsRest (acc : List JValue)
  | membersStart
  | membersRest (acc : List (String × JValue))

/-- Modelled from the spec: the §4.3/§4.8 state machine
`Start → skip-whitespace → dispatch-on-first-char →
{Object|Array|String|Number|Literal}`.  Elements and pairs are head-inserted
while parsing and the accumulator is reversed once the closing bracket is
reached, so the final list order equals source order.  Error mapping per
§4.3/§8: a value position holding an unexpected character (including a stray
closing bracket) is `JSON_PARSE_UNEXPECTED_CHARACTER`; a bare identifier
other than `true`/`false`/`null` is `JSON_PARSE_UNKNOWN_IDENTIFIER`; a
malformed number token is `JSON_PARSE_BAD_NUMBER`; a missing or wrong-kind
closing bracket is `JSON_PARSE_MISMATCH_BRACKET`.  `fuel` bounds recursion
depth; each nesting level consumes at least one character, so
`input length + 1` never runs out. -/
def parseF (fuel : Nat) (mode : ParseMode) (cs : List Char) :
    Except JsonParseStatus (JValue × List Char) :=
  match fuel with
  | 0 => .error .JSON_PARSE_UNEXPECTED_CHARACTER
  | fuel + 1 =>
    match mode with
    | .value =>
      match skipWs cs with
      | [] => .error .JSON_PARSE_UNEXPECTED_CHARACTER
      | c :: rest =>
        if c = '{' then parseF fuel .membersStart rest
        else if c = '[' then parseF fuel .elemsStart rest
        else if c = '"' then
          match parseStringBody (rest.length + 1) rest [] with
          | .error e => .error e
          | .ok (s, rest2) => .ok (.jstring s, rest2)
        else if c = '-' || c.isDigit then
          let (tok, rest2) := takeNumTok (c :: rest)
          if validNumber tok then .ok (.jnumber (String.mk tok), rest2)
          else .error .JSON_PARSE_BAD_NUMBER
        else if c.isAlpha then
          let (tok, rest2) := takeIdent (c :: rest)
          if tok = ['t', 'r', 'u', 'e'] then .ok (.jbool true, rest2)
          else if tok = ['f', 'a', 'l', 's', 'e'] then .ok (.jbool false, rest2)
          else if tok = ['n', 'u', 'l', 'l'] then .ok (.jnull, rest2)
          else .error .JSON_PARSE_UNKNOWN_IDENTIFIER
        else .error .JSON_PARSE_UNEXPECTED_CHARACTER
    | .elemsStart =>
      match skipWs cs with
      | [] => .error .JSON_PARSE_MISMATCH_BRACKET
      | c :: rest =>
        if c = ']' then .ok (.jarray [], rest)
        else
          match parseF fuel .value (c :: rest) with
          | .error e => .error e
          | .ok (v, rest2) => parseF fuel (.elemsRest [v]) rest2
    | .elemsRest acc =>
      match skipWs cs with
      | [] => .error .JSON_PARSE_MISMATCH_BRACKET
      | c :: rest =>
        if c = ']' then .ok (.jarray acc.reverse, rest)
        else if c = ',' then
          match parseF fuel .value rest with
          | .error e => .error e
          | .ok (v, rest2) => parseF fuel (.elemsRest (v :: acc)) rest2
        else if c = '}' then .error .JSON_PARSE_MISMATCH_BRACKET
        else .error .JSON_PARSE_UNEXPECTED_CHARACTER
    | .membersStart =>
      match skipWs cs with
      | [] => .error .JSON_PARSE_MISMATCH_BRACKET
      | c :: rest =>
        if c = '}' then .ok (.jobject [], rest)
        else if c = '"' then
          match parseStringBody (rest.length + 1) rest [] with
          | .error e => .error e
          | .ok (k, rest2) =>
            match skipWs rest2 with
            | ':' :: rest3 =>
              match parseF fuel .value rest3 with
              | .error e => .error e
              | .ok (v, rest4) => parseF fuel (.membersRest [(k, v)]) rest4
            | _ => .error .JSON_PARSE_UNEXPECTED_CHARACTER
        else .error .JSON_PARSE_UNEXPECTED_CHARACTER
    | .membersRest acc =>
      match skipWs cs with
      | [] => .error .JSON_PARSE_MISMATCH_BRACKET
      | c :: rest =>
        if c = '}' then .ok (.jobject acc.reverse, rest)
        else if c = ',' then
          match skipWs rest with
          | '"' :: rest2 =>
            match parseStringBody (rest2.length + 1) rest2 [] with
            | .error e => .error e
            | .ok (k, rest3) =>
              match skipWs rest3 with
              | ':' :: rest4 =>
                match parseF fuel .value rest4 with
                | .error e => .error e
                | .ok (v, rest5) => parseF fuel (.membersRest ((k, v) :: acc)) rest5
              | _ => .error .JSON_PARSE_UNEXPECTED_CHARACTER
          | _ => .error .JSON_PARSE_UNEXPECTED_CHARACTER
        else if c = ']' then .error .JSON_PARSE_MISMATCH_BRACKET
        else .error .JSON_PARSE_UNEXPECTED_CHARACTER

/-- Modelled from the spec: `json_parse` top level — parse one value, then
require that only whitespace trails it ("extra trailing content" is in the
bracket-mismatch class per §4.3). -/
def json_parse (input : String) : Except JsonParseStatus JValue :=
  match parseF (input.length + 1) .value input.data with
  | .error e => .error e
  | .ok (v, rest) =>
    if (skipWs rest).isEmpty then .ok v
    else .error .JSON_PARSE_MISMATCH_BRACKET

/-- Already-discovered elements (head-inserted accumulator `acc`, i.e.
`acc.reverse` in discovery order) prepended to an array parse result; a
non-array result is passed through unchanged. -/
def withElems (acc : List JValue) : JValue × List Char → JValue × List Char
  | (.jarray vs, rest) => (.jarray (acc.reverse ++ vs), rest)
  | r => r

/-- Already-discovered members prepended to an object parse result. -/
def withMembers (acc : List (String × JValue)) : JValue × List Char → JValue × List Char
  | (.jobject ms, rest) => (.jobject (acc.reverse ++ ms), rest)
  | r => r

/-- One-step unfolding of `parseF` in `elemsRest` mode. -/
theorem parseF_elemsRest_eq (fuel : Nat) (acc : List JValue) (cs : List Char) :
    parseF (fuel + 1) (.elemsRest acc) cs =
      match skipWs cs with
      | [] => .error .JSON_PARSE_MISMATCH_BRACKET
      | c :: rest =>
        if c = ']' then .ok (.jarray acc.reverse, rest)
        else if c = ',' then
          match parseF fuel .value rest with
          | .error e => .error e
          | .ok (v, rest2) => parseF fuel (.elemsRest (v :: acc)) rest2
        else if c = '}' then .error .JSON_PARSE_MISMATCH_BRACKET
        else .error .JSON_PARSE_UNEXPECTED_CHARACTER := rfl

/-- One-step unfolding of `parseF` in `membersRest` mode. -/
theorem parseF_membersRest_eq (fuel : Nat) (acc : List (String × JValue)) (cs : List Char) :
    parseF (fuel + 1) (.membersRest acc) cs =
      match skipWs cs with
      | [] => .error .JSON_PARSE_MISMATCH_BRACKET
      | c :: rest =>
        if c = '}' then .ok (.jobject acc.reverse, rest)
        else if c = ',' then
          match skipWs rest with
          | '"' :: rest2 =>
            match parseStringBody (rest2.length + 1) rest2 [] with
            | .error e => .error e
            | .ok (k, rest3) =>
              match skipWs rest3 with
              | ':' :: rest4 =>
                match parseF fuel .value rest4 with
                | .error e => .error e
                | .ok (v, rest5) => parseF fuel (.membersRest ((k, v) :: acc)) rest5
              | _ => .error .JSON_PARSE_UNEXPECTED_CHARACTER
          | _ => .error .JSON_PARSE_UNEXPECTED_CHARACTER
        else if c = ']' then .error .JSON_PARSE_MISMATCH_BRACKET
        else .error .JSON_PARSE_UNEXPECTED_CHARACTER := rfl

/-- One-step unfolding of `parseF` in `elemsStart` mode. -/
theorem parseF_elemsStart_eq (fuel : Nat) (cs : List Char) :
    parseF (fuel + 1) .elemsStart cs =
      match skipWs cs with
      | [] => .error .JSON_PARSE_MISMATCH_BRACKET
      | c :: rest =>
        if c = ']' then .ok (.jarray [], rest)
        else
          match parseF fuel .value (c :: rest) with
          | .error e => .error e
          | .ok (v, rest2) => parseF fuel (.elemsRest [v]) rest2 := rfl

/-- One-step unfolding of `parseF` in `membersStart` mode. -/
theorem parseF_membersStart_eq (fuel : Nat) (cs : List Char) :
    parseF (fuel + 1) .membersStart cs =
      match skipWs cs with
      | [] => .error .JSON_PARSE_MISMATCH_BRACKET
      | c :: rest =>
        if c = '}' then .ok (.jobject [], rest)
        else if c = '"' then
          match parseStringBody (rest.length + 1) rest [] with
          | .error e => .error e
          | .ok (k, rest2) =>
            match skipWs rest2 with
            | ':' :: rest3 =>
              match parseF fuel .value rest3 with
              | .error e => .error e
              | .ok (v, rest4) => parseF fuel (.membersRest [(k, v)]) rest4
            | _ => .error .JSON_PARSE_UNEXPECTED_CHARACTER
        else .error .JSON_PARSE_UNEXPECTED_CHARACTER := rfl

/-- Accumulator prefixes compose: prepending `[v]` and then `acc` is
prepending `v :: acc`. -/
theorem withElems_cons (v : JValue) (acc : List JValue) (r : JValue × List Char) :
    withElems acc (withElems [v] r) = withElems (v :: acc) r := by
  obtain ⟨u, rest⟩ := r
  cases u <;> simp [withElems]

/-- Accumulator prefixes compose (object version). -/
theorem withMembers_cons (kv : String × JValue) (acc : List (String × JValue))
    (r : JValue × List Char) :
    withMembers acc (withMembers [kv] r) = withMembers (kv :: acc) r := by
  obtain ⟨u, rest⟩ := r
  cases u <;> simp [withMembers]

/-- Accumulator law (arrays): parsing an array tail with accumulator `acc` is
parsing it with the empty accumulator and prepending `acc.reverse` — the
already-discovered elements keep their discovery order in front of whatever
is parsed later, for every input and every fuel. -/
theorem parseF_elemsRest_acc :
    ∀ (fuel : Nat) (acc : List JValue) (cs : List Char),
      parseF fuel (.elemsRest acc) cs =
        (parseF fuel (.elemsRest []) cs).map (withElems acc) := by
  intro fuel
  induction fuel with
  | zero => intro acc cs; rfl
  | succ fuel ih =>
    intro acc cs
    rw [parseF_elemsRest_eq, parseF_elemsRest_eq]
    cases hws : skipWs cs with
    | nil => rfl
    | cons c rest =>
      simp only []
      by_cases h1 : c = ']'
      · subst h1
        simp [Except.map, withElems]
      · by_cases h2 : c = ','
        · subst h2
          rw [if_neg h1, if_neg h1, if_pos rfl, if_pos rfl]
          cases hv : parseF fuel .value rest with
          | error e => rfl
          | ok pr =>
            obtain ⟨v, rest2⟩ := pr
            show parseF fuel (.elemsRest (v :: acc)) rest2
                = Except.map (withElems acc) (parseF fuel (.elemsRest [v]) rest2)
            rw [ih (v :: acc) rest2, ih [v] rest2]
            cases hb : parseF fuel (.elemsRest []) rest2 with
            | error e => rfl
            | ok r => simp [Except.map, withElems_cons]
        · rw [if_neg h1, if_neg h1, if_neg h2, if_neg h2]
          by_cases h3 : c = '}'
          · subst h3
            rfl
          · rw [if_neg h3]
            rfl

/-- Accumulator law (objects): parsing an object tail with accumulator `acc`
is parsing it with the empty accumulator and prepending `acc.reverse`. -/
theorem parseF_membersRest_acc :
    ∀ (fuel : Nat) (acc : List (String × JValue)) (cs : List Char),
      parseF fuel (.membersRest acc) cs =
        (parseF fuel (.membersRest []) cs).map (withMembers acc) := by
  intro fuel
  induction fuel with
  | zero => intro acc cs; rfl
  | succ fuel ih =>
    intro acc cs
    rw [parseF_membersRest_eq, parseF_membersRest_eq]
    cases hws : skipWs cs with
    | nil => rfl
    | cons c rest =>
      simp only []
      by_cases h1 : c = '}'
      · subst h1
        simp [Except.map, withMembers]
      · by_cases h2 : c = ','
        · subst h2
          rw [if_neg h1, if_neg h1, if_pos rfl, if_pos rfl]
          cases hws2 : skipWs rest with
          | nil => rfl
          | cons c2 rest2 =>
            by_cases hq : c2 = '"'
            · subst hq
              simp only []
              cases hsb : parseStringBody (rest2.length + 1) rest2 [] with
              | error e => rfl
              | ok kr =>
                obtain ⟨k, rest3⟩ := kr
                simp only []
                cases hws3 : skipWs rest3 with
                | nil => rfl
                | cons c3 rest4 =>
                  by_cases hc : c3 = ':'
                  · subst hc
                    simp only []
                    cases hv : parseF fuel .value rest4 with
                    | error e => rfl
                    | ok vr =>
                      obtain ⟨v, rest5⟩ := vr
                      show parseF fuel (.membersRest ((k, v) :: acc)) rest5
                          = Except.map (withMembers acc)
                              (parseF fuel (.membersRest [(k, v)]) rest5)
                      rw [ih ((k, v) :: acc) rest5, ih [(k, v)] rest5]
                      cases hb : parseF fuel (.membersRest []) rest5 with
                      | error e => rfl
                      | ok r => simp [Except.map, withMembers_cons]
                  · split
                    next x r heq => exact absurd (List.head_eq_of_cons_eq heq) hc
                    next x h => rfl
            · split
              next x r heq => exact absurd (List.head_eq_of_cons_eq heq) hq
              next x h => rfl
        · rw [if_neg h1, if_neg h1, if_neg h2, if_neg h2]
          by_cases h3 : c = ']'
          · subst h3
            rfl
          · rw [if_neg h3]
            rfl

/-- At a closing `]` the head-inserted accumulator is reversed: the final
element list is exactly the discovery order. -/
theorem parseF_elemsRest_close (fuel : Nat) (acc : List JValue) (cs rest : List Char)
    (hws : skipWs cs = ']' :: rest) :
    parseF (fuel + 1) (.elemsRest acc) cs = .ok (.jarray acc.reverse, rest) := by
  rw [parseF_elemsRest_eq, hws]
  simp only []
  rw [if_pos trivial]

/-- At a closing `}` the head-inserted accumulator is reversed. -/
theorem parseF_membersRest_close (fuel : Nat) (acc : List (String × JValue))
    (cs rest : List Char) (hws : skipWs cs = '}' :: rest) :
    parseF (fuel + 1) (.membersRest acc) cs = .ok (.jobject acc.reverse, rest) := by
  rw [parseF_membersRest_eq, hws]
  simp only []
  rw [if_pos trivial]

/-- The first element parsed in a nonempty array becomes the head of the
final element list, followed by everything parsed later. -/
theorem parseF_elemsStart_head (fuel : Nat) (cs rest : List Char) (c : Char)
    (v : JValue) (rest2 : List Char)
    (hws : skipWs cs = c :: rest) (hne : c ≠ ']')
    (hv : parseF fuel .value (c :: rest) = .ok (v, rest2)) :
    parseF (fuel + 1) .elemsStart cs =
      (parseF fuel (.elemsRest []) rest2).map (withElems [v]) := by
  rw [parseF_elemsStart_eq, hws]
  simp only []
  rw [if_neg hne, hv]
  simp only []
  exact parseF_elemsRest_acc fuel [v] rest2

/-- The element parsed after a `,` is placed directly after every previously
discovered element (`acc.reverse`) and before everything parsed later. -/
theorem parseF_elemsRest_step (fuel : Nat) (acc : List JValue) (cs rest : List Char)
    (v : JValue) (rest2 : List Char)
    (hws : skipWs cs = ',' :: rest)
    (hv : parseF fuel .value rest = .ok (v, rest2)) :
    parseF (fuel + 1) (.elemsRest acc) cs =
      (parseF fuel (.elemsRest []) rest2).map (withElems (v :: acc)) := by
  rw [parseF_elemsRest_eq, hws]
  simp only []
  rw [if_pos trivial, hv]
  simp only []
  exact parseF_elemsRest_acc fuel (v :: acc) rest2

/-- The first member parsed in a nonempty object becomes the head of the
final pair list. -/
theorem parseF_membersStart_head (fuel : Nat) (cs rest : List Char) (k : String)
    (rest2 rest3 : List Char) (v : JValue) (rest4 : List Char)
    (hws : skipWs cs = '"' :: rest)
    (hk : parseStringBody (rest.length + 1) rest [] = .ok (k, rest2))
    (hcolon : skipWs rest2 = ':' :: rest3)
    (hv : parseF fuel .value rest3 = .ok (v, rest4)) :
    parseF (fuel + 1) .membersStart cs =
      (parseF fuel (.membersRest []) rest4).map (withMembers [(k, v)]) := by
  rw [parseF_membersStart_eq, hws]
  simp only []
  rw [if_pos trivial, hk]
  simp only []
  rw [hcolon]
  simp only []
  rw [hv]
  simp only []
  exact parseF_membersRest_acc fuel [(k, v)] rest4

/-- The member parsed after a `,` is placed directly after every previously
discovered member and before everything parsed later. -/
theorem parseF_membersRest_step (fuel : Nat) (acc : List (String × JValue))
    (cs rest rest2 : List Char) (k : String) (rest3 rest4 : List Char)
    (v : JValue) (rest5 : List Char)
    (hws : skipWs cs = ',' :: rest)
    (hq : skipWs rest = '"' :: rest2)
    (hk : parseStringBody (rest2.length + 1) rest2 [] = .ok (k, rest3))
    (hcolon : skipWs rest3 = ':' :: rest4)
    (hv : parseF fuel .value rest4 = .ok (v, rest5)) :
    parseF (fuel + 1) (.membersRest acc) cs =
      (parseF fuel (.membersRest []) rest5).map (withMembers ((k, v) :: acc)) := by
  rw [parseF_membersRest_eq, hws]
  simp only []
  rw [if_pos trivial, hq]
  simp only []
  rw [hk]
  simp only []
  rw [hcolon]
  simp only []
  rw [hv]
  simp only []
  exact parseF_membersRest_acc fuel ((k, v) :: acc) rest5

/-- Inversion: every successful array-tail parse with accumulator `acc`
yields `acc.reverse` (the elements discovered so far, in discovery order)
followed by exactly the elements of the remaining input. -/
theorem parseF_elemsRest_ok_inv (fuel : Nat) (acc : List JValue) (cs : List Char)
    (l : List JValue) (rest : List Char)
    (h : parseF fuel (.elemsRest acc) cs = .ok (.jarray l, rest)) :
    ∃ suffix : List JValue, l = acc.reverse ++ suffix ∧
      parseF fuel (.elemsRest []) cs = .ok (.jarray suffix, rest) := by
  have hlaw := parseF_elemsRest_acc fuel acc cs
  rw [h] at hlaw
  cases hb : parseF fuel (.elemsRest []) cs with
  | error e =>
    rw [hb] at hlaw
    exact absurd hlaw (by simp [Except.map])
  | ok r =>
    rw [hb] at hlaw
    obtain ⟨u, rest2⟩ := r
    cases u <;> simp [Except.map, withElems] at hlaw
    obtain ⟨h1, h2⟩ := hlaw
    subst h2
    exact ⟨_, h1, rfl⟩

/-- Inversion (objects): every successful object-tail parse with accumulator
`acc` yields `acc.reverse` followed by the members of the remaining input. -/
theorem parseF_membersRest_ok_inv (fuel : Nat) (acc : List (String × JValue))
    (cs : List Char) (l : List (String × JValue)) (rest : List Char)
    (h : parseF fuel (.membersRest acc) cs = .ok (.jobject l, rest)) :
    ∃ suffix : List (String × JValue), l = acc.reverse ++ suffix ∧
      parseF fuel (.membersRest []) cs = .ok (.jobject suffix, rest) := by
  have hlaw := parseF_membersRest_acc fuel acc cs
  rw [h] at hlaw
  cases hb : parseF fuel (.membersRest []) cs with
  | error e =>
    rw [hb] at hlaw
    exact absurd hlaw (by simp [Except.map])
  | ok r =>
    rw [hb] at hlaw
    obtain ⟨u, rest2⟩ := r
    cases u <;> simp [Except.map, withMembers] at hlaw
    obtain ⟨h1, h2⟩ := hlaw
    subst h2
    exact ⟨_, h1, rfl⟩

/-- C6: source-order preservation, universally over every successfully parsed
array and object.  The conjuncts state, for every input, accumulator and
fuel: a closing bracket reverses the head-inserted accumulator, so the final
link order is exactly discovery order; the first element (resp. member)
parsed becomes the head of the final list; each element (resp. member) parsed
at a comma is placed directly after every previously discovered one and
before everything parsed later; the accumulator laws make the
already-discovered prefix stable under any continuation; and the inversion
lemmas recover, from any successful parse, the discovery-order decomposition
— never reversed, never sorted.  The spec's canonical examples `[3,1,2]` and
`\x7b"a":1,"b":2\x7d` close the statement. -/
theorem c6_source_order :
    (∀ (fuel : Nat) (acc : List JValue) (cs rest : List Char),
      skipWs cs = ']' :: rest →
        parseF (fuel + 1) (.elemsRest acc) cs = .ok (.jarray acc.reverse, rest)) ∧
    (∀ (fuel : Nat) (acc : List (String × JValue)) (cs rest : List Char),
      skipWs cs = '}' :: rest →
        parseF (fuel + 1) (.membersRest acc) cs = .ok (.jobject acc.reverse, rest)) ∧
    (∀ (fuel : Nat) (cs rest : List Char) (c : Char) (v : JValue) (rest2 : List Char),
      skipWs cs = c :: rest → c ≠ ']' →
      parseF fuel .value (c :: rest) = .ok (v, rest2) →
        parseF (fuel + 1) .elemsStart cs =
          (parseF fuel (.elemsRest []) rest2).map (withElems [v])) ∧
    (∀ (fuel : Nat) (acc : List JValue) (cs rest : List Char) (v : JValue)
        (rest2 : List Char),
      skipWs cs = ',' :: rest →
      parseF fuel .value rest = .ok (v, rest2) →
        parseF (fuel + 1) (.elemsRest acc) cs =
          (parseF fuel (.elemsRest []) rest2).map (withElems (v :: acc))) ∧
    (∀ (fuel : Nat) (cs rest : List Char) (k : String) (rest2 rest3 : List Char)
        (v : JValue) (rest4 : List Char),
      skipWs cs = '"' :: rest →
      parseStringBody (rest.length + 1) rest [] = .ok (k, rest2) →
      skipWs rest2 = ':' :: rest3 →
      parseF fuel .value rest3 = .ok (v, rest4) →
        parseF (fuel + 1) .membersStart cs =
          (parseF fuel (.membersRest []) rest4).map (withMembers [(k, v)])) ∧
    (∀ (fuel : Nat) (acc : List (String × JValue)) (cs rest rest2 : List Char)
        (k : String) (rest3 rest4 : List Char) (v : JValue) (rest5 : List Char),
      skipWs cs = ',' :: rest →
      skipWs rest = '"' :: rest2 →
      parseStringBody (rest2.length + 1) rest2 [] = .ok (k, rest3) →
      skipWs rest3 = ':' :: rest4 →
      parseF fuel .value rest4 = .ok (v, rest5) →
        parseF (fuel + 1) (.membersRest acc) cs =
          (parseF fuel (.membersRest []) rest5).map (withMembers ((k, v) :: acc))) ∧
    (∀ (fuel : Nat) (acc : List JValue) (cs : List Char),
      parseF fuel (.elemsRest acc) cs =
        (parseF fuel (.elemsRest []) cs).map (withElems acc)) ∧
    (∀ (fuel : Nat) (acc : List (String × JValue)) (cs : List Char),
      parseF fuel (.membersRest acc) cs =
        (parseF fuel (.membersRest []) cs).map (withMembers acc)) ∧
    (∀ (fuel : Nat) (acc : List JValue) (cs : List Char) (l : List JValue)
        (rest : List Char),
      parseF fuel (.elemsRest acc) cs = .ok (.jarray l, rest) →
        ∃ suffix : List JValue, l = acc.reverse ++ suffix ∧
          parseF fuel (.elemsRest []) cs = .ok (.jarray suffix, rest)) ∧
    (∀ (fuel : Nat) (acc : List (String × JValue)) (cs : List Char)
        (l : List (String × JValue)) (rest : List Char),
      parseF fuel (.membersRest acc) cs = .ok (.jobject l, rest) →
        ∃ suffix : List (String × JValue), l = acc.reverse ++ suffix ∧
          parseF fuel (.membersRest []) cs = .ok (.jobject suffix, rest)) ∧
    json_parse "[3,1,2]" =
      .ok (.jarray [.jnumber "3", .jnumber "1", .jnumber "2"]) ∧
    json_parse "\x7b\"a\":1,\"b\":2\x7d" =
      .ok (.jobject [("a", .jnumber "1"), ("b", .jnumber "2")]) ∧
    json_parse "[[3,1],[2],[]]" =
      .ok (.jarray [.jarray [.jnumber "3", .jnumber "1"],
                    .jarray [.jnumber "2"], .jarray []]) ∧
    json_parse "\x7b\"c\":3,\"a\":1,\"b\":2\x7d" =
      .ok (.jobject [("c", .jnumber "3"), ("a", .jnumber "1"),
                     ("b", .jnumber "2")]) :=
  ⟨parseF_elemsRest_close, parseF_membersRest_close, parseF_elemsStart_head,
   parseF_elemsRest_step, parseF_membersStart_head, parseF_membersRest_step,
   parseF_elemsRest_acc, parseF_membersRest_acc, parseF_elemsRest_ok_inv,
   parseF_membersRest_ok_inv, rfl, rfl, rfl, rfl⟩

/-- C6 witness: concrete instances — closing `]` reverses the accumulator;
the element `2` parsed at a comma lands after the already-discovered `1`;
and the inversion decomposes a successful parse into discovery order. -/
theorem c6_source_order_witness :
    parseF 1 (.elemsRest [JValue.jnumber "1"]) [']'] =
      .ok (.jarray [JValue.jnumber "1"], []) ∧
    parseF 2 (.elemsRest [JValue.jnumber "1"]) [',', '2', ']'] =
      (parseF 1 (.elemsRest []) [']']).map
        (withElems [JValue.jnumber "2", JValue.jnumber "1"]) ∧
    ∃ suffix : List JValue,
      [JValue.jnumber "1", JValue.jnumber "2"]
        = [JValue.jnumber "1"].reverse ++ suffix ∧
      parseF 2 (.elemsRest []) [',', '2', ']'] = .ok (.jarray suffix, []) :=
  ⟨c6_source_order.1 0 [JValue.jnumber "1"] [']'] [] rfl,
   c6_source_order.2.2.2.1 1 [JValue.jnumber "1"] [',', '2', ']'] ['2', ']']
     (JValue.jnumber "2") [']'] rfl rfl,
   c6_source_order.2.2.2.2.2.2.2.2.1 2 [JValue.jnumber "1"] [',', '2', ']']
     [JValue.jnumber "1", JValue.jnumber "2"] [] rfl⟩

end Gason
